import Mathlib

/-!
Verification of `cloud-init-to-bash.py`: a shallow embedding, in Lean, of
`parse_cloud_init` and `generate_bash`, together with theorems about the
claims of the specification.

The Python string primitives are embedded at the character-list level
(`String.data`), so every definition is executable and transparent to
`decide`.  Whitespace is the ASCII set recognized by `Char.isWhitespace`
(space, tab, CR, LF); the inputs of this tool are ASCII.

Each Python `while` loop over the line index `i` becomes a fuel-indexed
recursive function carrying the same index; fuel `0` (and the one
index access `lines[i + 1]` that Python guards by `i + 1 < len(lines)`)
return `none`, so totality of the parser is a theorem, not a convention.
-/

set_option maxRecDepth 8000

/-- Python `str.strip()` (whitespace on both ends). -/
def pyStrip (s : String) : String :=
  ⟨((s.data.dropWhile Char.isWhitespace).reverse.dropWhile Char.isWhitespace).reverse⟩

/-- Python `str.rstrip()` (trailing whitespace). -/
def pyRstrip (s : String) : String :=
  ⟨(s.data.reverse.dropWhile Char.isWhitespace).reverse⟩

/-- Python `str.strip('"')` (all leading and trailing double quotes). -/
def pyStripQuotes (s : String) : String :=
  ⟨((s.data.dropWhile (· == '"')).reverse.dropWhile (· == '"')).reverse⟩

/-- Python `s.startswith(p)`. -/
def pyStartsWith (s p : String) : Bool := p.data.isPrefixOf s.data

/-- Python `s.endswith(p)`. -/
def pyEndsWith (s p : String) : Bool := p.data.isSuffixOf s.data

/-- Boolean contiguous-sublist test (used for Python `in` on strings and
for occurrence counting over emitted line lists). -/
def infixB [BEq α] : List α → List α → Bool
  | pat, [] => pat.isEmpty
  | pat, l@(_ :: t) => pat.isPrefixOf l || infixB pat t

/-- Python `pat in s` (substring test). -/
def pyContains (s pat : String) : Bool := infixB pat.data s.data

/-- Python `s[n:]`. -/
def pyDrop (s : String) (n : Nat) : String := ⟨s.data.drop n⟩

/-- Python `s[1:-1]`. -/
def pySlice1Neg1 (s : String) : String := ⟨(s.data.drop 1).dropLast⟩

/-- Python `s and s[0].isspace()` (guarded first-character whitespace test). -/
def pyFirstIsSpace (s : String) : Bool :=
  match s.data with
  | [] => false
  | c :: _ => c.isWhitespace

/-- Python `len(cl) - len(cl.lstrip())`: the number of leading whitespace
characters. -/
def leadingWs (s : String) : Nat := (s.data.takeWhile Char.isWhitespace).length

/-- Python `" " * n`. -/
def spaces (n : Nat) : String := ⟨List.replicate n ' '⟩

/-- Python `sep.join(l)`. -/
def pyJoin (sep : String) : List String → String
  | [] => ""
  | [x] => x
  | x :: y :: rest => x ++ sep ++ pyJoin sep (y :: rest)

/-- Worker for Python `str.replace`: leftmost, non-overlapping, all
occurrences.  Fuel `l.length + 1` always suffices. -/
def listReplaceF (fuel : Nat) (pat rep l : List Char) : List Char :=
  match fuel with
  | 0 => l
  | fuel + 1 =>
    match l with
    | [] => []
    | c :: rest =>
      if !pat.isEmpty && pat.isPrefixOf (c :: rest) then
        rep ++ listReplaceF fuel pat rep ((c :: rest).drop pat.length)
      else
        c :: listReplaceF fuel pat rep rest

/-- Python `s.replace(pat, rep)`. -/
def pyReplace (s pat rep : String) : String :=
  ⟨listReplaceF (s.data.length + 1) pat.data rep.data s.data⟩

/-- Worker for Python `str.split(sep)` (all occurrences, empty parts kept). -/
def listSplitF (fuel : Nat) (sep : List Char) (l cur : List Char) : List (List Char) :=
  match fuel with
  | 0 => [cur.reverse ++ l]
  | fuel + 1 =>
    match l with
    | [] => [cur.reverse]
    | c :: rest =>
      if !sep.isEmpty && sep.isPrefixOf (c :: rest) then
        cur.reverse :: listSplitF fuel sep ((c :: rest).drop sep.length) []
      else
        listSplitF fuel sep rest (c :: cur)

/-- Python `s.split(sep)` for a non-empty separator. -/
def pySplit (s sep : String) : List String :=
  if sep.data.isEmpty then [s]
  else (listSplitF (s.data.length + 1) sep.data s.data []).map fun cs => ⟨cs⟩

/-- The text after the first occurrence of `sep` in `l`, or `none` when
`sep` does not occur: Python `s.split(sep, 1)[1]`, where the `[1]` access
raises when `sep` is absent. -/
def afterFirst (fuel : Nat) (sep : List Char) (l : List Char) : Option (List Char) :=
  match fuel with
  | 0 => none
  | fuel + 1 =>
    match l with
    | [] => none
    | c :: rest =>
      if sep.isPrefixOf (c :: rest) then some ((c :: rest).drop sep.length)
      else afterFirst fuel sep rest

/-- Python `s.split(sep, 1)[1]` as a guarded (`Option`) access. -/
def pySplitAfterFirst (s sep : String) : Option String :=
  (afterFirst (s.data.length + 1) sep.data s.data).map fun cs => ⟨cs⟩

/-- One `write_files` record, with the parser's defaults. -/
structure FileEntry where
  path : String
  owner : String
  permissions : String
  content : String
deriving Repr, DecidableEq

/-- The parse result (`sections` dictionary of the Python source). -/
structure Config where
  ssh_pwauth : Bool
  packages : List String
  write_files : List FileEntry
  runcmd : List String
deriving Repr, DecidableEq

/-- Truthiness of Python's `content_indent` (`None` and `0` are falsy). -/
def ciTruthy : Option Nat → Bool
  | none => false
  | some n => n != 0

/-- Fuel that always suffices for one scan of `lines`. -/
def fullFuel (lines : List String) : Nat := lines.length + 1

/-- The `packages:` block loop (source lines 38-44): consume lines indented
by two spaces or blank; a trimmed `"- "` line contributes one package. -/
def packagesLoop (fuel : Nat) (lines : List String) (i : Nat) (acc : List String) :
    Option (List String × Nat) :=
  match fuel with
  | 0 => none
  | fuel + 1 =>
    match lines[i]? with
    | none => some (acc, i)
    | some l =>
      if pyStartsWith l "  " || pyStrip l == "" then
        let s := pyStrip l
        let acc := if pyStartsWith s "- " then acc ++ [pyStrip (pyDrop s 2)] else acc
        packagesLoop fuel lines (i + 1) acc
      else some (acc, i)

/-- The `runcmd:` block loop (source lines 114-128): like `packages:`, but
`"# "` lines are comments and a command wrapped in single quotes is
unquoted. -/
def runcmdLoop (fuel : Nat) (lines : List String) (i : Nat) (acc : List String) :
    Option (List String × Nat) :=
  match fuel with
  | 0 => none
  | fuel + 1 =>
    match lines[i]? with
    | none => some (acc, i)
    | some l =>
      if pyStartsWith l "  " || pyStrip l == "" then
        let s := pyStrip l
        if pyStartsWith s "# " then runcmdLoop fuel lines (i + 1) acc
        else
          let acc :=
            if pyStartsWith s "- " then
              let cmd := pyDrop s 2
              let cmd :=
                if pyStartsWith cmd "'" && pyEndsWith cmd "'" then pySlice1Neg1 cmd else cmd
              acc ++ [cmd]
            else acc
          runcmdLoop fuel lines (i + 1) acc
      else some (acc, i)

/-- The `content: |` block loop (source lines 86-104).  The indentation of
the first non-blank line establishes the block indentation; lines carrying
it are collected with it stripped; a blank line is kept (as `""`) only when
the next line still carries the indentation. -/
def contentLoop (fuel : Nat) (lines : List String) (i : Nat) (ci : Option Nat)
    (acc : List String) : Option (List String × Nat) :=
  match fuel with
  | 0 => none
  | fuel + 1 =>
    match lines[i]? with
    | none => some (acc, i)
    | some cl =>
      let cs := pyStrip cl
      let ci := if ci == none && cs != "" then some (leadingWs cl) else ci
      if ciTruthy ci && pyStartsWith cl (spaces (ci.getD 0)) && decide (0 < cl.length) then
        contentLoop fuel lines (i + 1) ci (acc ++ [pyDrop cl (ci.getD 0)])
      else if pyStrip cl == "" then
        if decide (i + 1 < lines.length) && ciTruthy ci then
          match lines[i + 1]? with
          | none => none
          | some nl =>
            if pyStartsWith nl (spaces (ci.getD 0)) then
              contentLoop fuel lines (i + 1) ci (acc ++ [""])
            else some (acc, i)
        else some (acc, i)
      else some (acc, i)

/-- The per-entry field loop of `write_files:` (source lines 68-107). -/
def fieldsLoop (fuel : Nat) (lines : List String) (i : Nat) (e : FileEntry) :
    Option (FileEntry × Nat) :=
  match fuel with
  | 0 => none
  | fuel + 1 =>
    match lines[i]? with
    | none => some (e, i)
    | some fl =>
      let fs := pyStrip fl
      if pyStartsWith fs "- path:" ||
          (fl != "" && !pyFirstIsSpace fl && fs != "" && !pyStartsWith fs "#") then
        some (e, i)
      else if pyStartsWith fs "owner:" then
        match pySplitAfterFirst fs "owner:" with
        | none => none
        | some v => fieldsLoop fuel lines (i + 1) { e with owner := pyStrip v }
      else if pyStartsWith fs "permissions:" then
        match pySplitAfterFirst fs "permissions:" with
        | none => none
        | some v => fieldsLoop fuel lines (i + 1) { e with permissions := pyStripQuotes (pyStrip v) }
      else if pyStartsWith fs "content:" then
        match contentLoop (fullFuel lines) lines (i + 1) none [] with
        | none => none
        | some r => fieldsLoop fuel lines r.2 { e with content := pyRstrip (pyJoin "\n" r.1) }
      else fieldsLoop fuel lines (i + 1) e

/-- The `write_files:` section loop (source lines 49-111). -/
def wfLoop (fuel : Nat) (lines : List String) (i : Nat) (acc : List FileEntry) :
    Option (List FileEntry × Nat) :=
  match fuel with
  | 0 => none
  | fuel + 1 =>
    match lines[i]? with
    | none => some (acc, i)
    | some l =>
      let s := pyStrip l
      if l != "" && !pyFirstIsSpace l && !pyStartsWith s "#" then
        some (acc, i)
      else if s == "" || pyStartsWith s "#" then
        wfLoop fuel lines (i + 1) acc
      else if pyStartsWith s "- path:" then
        match pySplitAfterFirst s "path:" with
        | none => none
        | some pv =>
          match fieldsLoop (fullFuel lines) lines (i + 1)
              ⟨pyStrip pv, "root:root", "0644", ""⟩ with
          | none => none
          | some r => wfLoop fuel lines r.2 (acc ++ [r.1])
      else wfLoop fuel lines (i + 1) acc

/-- The top-level scan of `parse_cloud_init` (source lines 27-130). -/
def mainLoop (fuel : Nat) (lines : List String) (i : Nat) (cfg : Config) : Option Config :=
  match fuel with
  | 0 => none
  | fuel + 1 =>
    match lines[i]? with
    | none => some cfg
    | some line =>
      if pyStartsWith line "ssh_pwauth:" then
        mainLoop fuel lines (i + 1) { cfg with ssh_pwauth := pyContains line "true" }
      else if line == "packages:" then
        match packagesLoop (fullFuel lines) lines (i + 1) cfg.packages with
        | none => none
        | some r => mainLoop fuel lines r.2 { cfg with packages := r.1 }
      else if line == "write_files:" then
        match wfLoop (fullFuel lines) lines (i + 1) cfg.write_files with
        | none => none
        | some r => mainLoop fuel lines r.2 { cfg with write_files := r.1 }
      else if line == "runcmd:" then
        match runcmdLoop (fullFuel lines) lines (i + 1) cfg.runcmd with
        | none => none
        | some r => mainLoop fuel lines r.2 { cfg with runcmd := r.1 }
      else mainLoop fuel lines (i + 1) cfg

/-- `parse_cloud_init` on the text of the file (the `open`/`read` I/O of the
Python function is the caller's concern): split on newlines and scan. -/
def parse_cloud_init (text : String) : Option Config :=
  mainLoop (fullFuel (pySplit text "\n")) (pySplit text "\n") 0 ⟨true, [], [], []⟩

/-- `home` derivation of `generate_bash` (source line 137). -/
def homeOf (user : String) : String :=
  if user != "root" then "/home/" ++ user else "/root"

/-- The fixed three header lines and separator (source lines 140-143). -/
def headerLines : List String :=
  ["#!/bin/bash", "set -x", "export DEBIAN_FRONTEND=noninteractive", ""]

/-- The packages section (source lines 146-151). -/
def pkgSection (packages : List String) : List String :=
  if packages.isEmpty then []
  else
    ["# System packages", "apt-get update -y", "apt-get upgrade -y",
     "apt-get install -y " ++ pyJoin " " packages, ""]

/-- The lines emitted for one non-skipped `write_files` entry
(source lines 158-176). -/
def wfEntryLines (user : String) (entry : FileEntry) : List String :=
  let home := homeOf user
  let path := if user != "ubuntu" then pyReplace entry.path "/home/ubuntu" home else entry.path
  let owner := if user != "ubuntu" then pyReplace entry.owner "ubuntu" user else entry.owner
  let perms := entry.permissions
  let content :=
    if user != "ubuntu" then pyReplace entry.content "/home/ubuntu" home else entry.content
  let parent := pyJoin "/" ((pySplit path "/").dropLast)
  (if parent != "" then ["mkdir -p " ++ parent] else []) ++
  ["cat > " ++ path ++ " << 'FILEEOF'", content, "FILEEOF",
   "chmod " ++ perms ++ " " ++ path,
   "chown " ++ owner ++ " " ++ path, ""]

/-- The write-files section: entries whose (un-rewritten) path contains
`"sshd_config"` are skipped (source lines 154-157). -/
def wfSection (user : String) : List FileEntry → List String
  | [] => []
  | e :: rest =>
    (if pyContains e.path "sshd_config" then [] else wfEntryLines user e) ++ wfSection user rest

/-- The SSH hardening section (source lines 179-187). -/
def sshSection (pw : Bool) : List String :=
  if pw then []
  else
    ["# SSH hardening",
     "cat > /etc/ssh/sshd_config.d/99-hardening.conf << 'SSHCONF'",
     "PasswordAuthentication no",
     "KbdInteractiveAuthentication no",
     "PubkeyAuthentication yes",
     "PermitRootLogin prohibit-password",
     "SSHCONF", ""]

/-- The runcmd section (source lines 190-201), with the five in-sequence
literal replacements applied when the user is not `"ubuntu"`. -/
def runSection (user : String) (cmds : List String) : List String :=
  if cmds.isEmpty then []
  else
    "# Run commands" ::
      (cmds.map fun cmd =>
        if user != "ubuntu" then
          pyReplace (pyReplace (pyReplace (pyReplace (pyReplace cmd
            "ubuntu:ubuntu" (user ++ ":" ++ user))
            "/home/ubuntu" (homeOf user))
            "chsh -s /usr/bin/zsh ubuntu" ("chsh -s /usr/bin/zsh " ++ user))
            "chown -R ubuntu:ubuntu" ("chown -R " ++ user ++ ":" ++ user))
            "su - ubuntu" ("su - " ++ user)
        else cmd) ++ [""]

/-- The full `out` list of `generate_bash`, in emission order. -/
def generateLines (sections : Config) (user : String) : List String :=
  headerLines ++ pkgSection sections.packages ++ wfSection user sections.write_files ++
    sshSection sections.ssh_pwauth ++ runSection user sections.runcmd

/-- `generate_bash`: the joined script text (source line 203). -/
def generate_bash (sections : Config) (user : String) : String :=
  pyJoin "\n" (generateLines sections user)

/-- The signature line of the SSH hardening heredoc. -/
def sshCatLine : String := "cat > /etc/ssh/sshd_config.d/99-hardening.conf << 'SSHCONF'"

/-- The SSH hardening heredoc without the comment and separator lines:
the `cat` line, the four fixed directives, and the closing delimiter. -/
def sshBlockCore : List String :=
  [sshCatLine,
   "PasswordAuthentication no",
   "KbdInteractiveAuthentication no",
   "PubkeyAuthentication yes",
   "PermitRootLogin prohibit-password",
   "SSHCONF"]

/-- Number of positions of `l` at which `block` occurs as a run of
consecutive elements. -/
def countBlockOcc (block : List String) : List String → Nat
  | [] => 0
  | x :: rest => (if block.isPrefixOf (x :: rest) then 1 else 0) + countBlockOcc block rest

/-- Stated from the claim (C7): the quotes of a runcmd item are stripped
exactly when the text both starts and ends with a single-quote character
(for a one-character text `'` the same character plays both roles). -/
def stripOuterQuotes (c : String) : String :=
  if pyStartsWith c "'" && pyEndsWith c "'" then pySlice1Neg1 c else c

/-- Stated from the claim (C5): the five literal replacements, in the
claimed sequence, applied to one runcmd command for a target user. -/
def rewriteCmdSpec (user : String) (cmd : String) : String :=
  pyReplace (pyReplace (pyReplace (pyReplace (pyReplace cmd
    "ubuntu:ubuntu" (user ++ ":" ++ user))
    "/home/ubuntu" (homeOf user))
    "chsh -s /usr/bin/zsh ubuntu" ("chsh -s /usr/bin/zsh " ++ user))
    "chown -R ubuntu:ubuntu" ("chown -R " ++ user ++ ":" ++ user))
    "su - ubuntu" ("su - " ++ user)

/-- Stated from the claim (C4): the write-files section emitted with every
stored field byte-identical (no substring replacement anywhere). -/
def wfSectionRaw : List FileEntry → List String
  | [] => []
  | e :: rest =>
    (if pyContains e.path "sshd_config" then []
     else
       (if pyJoin "/" ((pySplit e.path "/").dropLast) != "" then
          ["mkdir -p " ++ pyJoin "/" ((pySplit e.path "/").dropLast)]
        else []) ++
       ["cat > " ++ e.path ++ " << 'FILEEOF'", e.content, "FILEEOF",
        "chmod " ++ e.permissions ++ " " ++ e.path,
        "chown " ++ e.owner ++ " " ++ e.path, ""]) ++ wfSectionRaw rest

/-- Stated from the claim (C4): the whole script for user `"ubuntu"`, with
every emitted path, owner, content block, and runcmd line taken verbatim
from the `Config`. -/
def generateUbuntuSpec (cfg : Config) : String :=
  pyJoin "\n"
    (headerLines ++ pkgSection cfg.packages ++ wfSectionRaw cfg.write_files ++
      sshSection cfg.ssh_pwauth ++
      (if cfg.runcmd.isEmpty then [] else "# Run commands" :: (cfg.runcmd ++ [""])))

/-- The round-trip input document of the specification (C1). -/
def docC1 : String :=
  "packages:\n  - nginx\n  - git\nwrite_files:\n  - path: /etc/motd\n    owner: root:root\n    permissions: \"0644\"\n    content: |\n      hello\n      world\nruncmd:\n  - echo done\nssh_pwauth: false"

/-- The parse of `docC1`. -/
def cfgC1 : Config :=
  ⟨false, ["nginx", "git"], [⟨"/etc/motd", "root:root", "0644", "hello\nworld"⟩], ["echo done"]⟩

/-- A config whose runcmd lines coincide with the SSH hardening block text
(used to refute the universal once-and-only-once reading of C3). -/
def cfgInjC3 : Config := ⟨true, [], [], sshBlockCore⟩

/-- A small concrete config exercising every rewriting path (witnesses). -/
def cfgDemo : Config :=
  ⟨false, ["zsh"], [⟨"/home/ubuntu/.zshrc", "ubuntu:ubuntu", "0644", "x"⟩],
    ["chown -R ubuntu:ubuntu /home/ubuntu", "echo hi"]⟩

/-! ### Basic lemmas about the string primitives -/

theorem strExt {a b : String} (h : a.data = b.data) : a = b := by
  cases a
  cases b
  exact congrArg String.mk h

theorem strDataAppend (a b : String) : (a ++ b).data = a.data ++ b.data := rfl

theorem isPrefixOfE [BEq α] [LawfulBEq α] :
    ∀ a b : List α, a.isPrefixOf b = true ↔ ∃ t, b = a ++ t := by
  intro a
  induction a with
  | nil => intro b; simp [ List.isPrefixOf]
  | cons x xs ih =>
    intro b
    cases b with
    | nil =>
      simp only [ List.isPrefixOf]
      constructor
      · intro h; exact absurd h (by simp)
      · rintro ⟨t, ht⟩; exact absurd ht (by simp)
    | cons y ys =>
      simp only [ List.isPrefixOf, Bool.and_eq_true, beq_iff_eq, ih]
      constructor
      · rintro ⟨rfl, t, rfl⟩; exact ⟨t, rfl⟩
      · rintro ⟨t, ht⟩
        rw [List.cons_append] at ht
        injection ht with h1 h2
        exact ⟨h1.symm, t, h2⟩

theorem getSomeLt : ∀ (l : List α) (i : Nat) (x : α), l[i]? = some x → i < l.length := by
  intro l
  induction l with
  | nil => intro i x h; simp at h
  | cons a t ih =>
    intro i x h
    cases i with
    | zero => simp
    | succ n =>
      simp only [List.getElem?_cons_succ] at h
      have := ih n x h
      simp only [List.length_cons]
      omega

theorem getLtSome : ∀ (l : List α) (i : Nat), i < l.length → ∃ x, l[i]? = some x := by
  intro l
  induction l with
  | nil => intro i h; simp at h
  | cons a t ih =>
    intro i h
    cases i with
    | zero => exact ⟨a, by simp⟩
    | succ n =>
      simp only [List.getElem?_cons_succ]
      exact ih n (by simp at h; omega)

theorem takeLenAppend : ∀ a b : List α, (a ++ b).take a.length = a := by
  intro a b
  induction a with
  | nil => rfl
  | cons x xs ih => simp [ih]

theorem appendNeOfTake (p c : String) (h : c.data.take p.data.length ≠ p.data) :
    ∀ s : String, p ++ s ≠ c := by
  intro s he
  apply h
  have hd : p.data ++ s.data = c.data := by rw [← strDataAppend, he]
  rw [← hd, takeLenAppend]

theorem startsHead {s p : String} {c : Char} {cs : List Char}
    (hp : p.data = c :: cs) (h : pyStartsWith s p = true) : ∃ t, s.data = c :: t := by
  rcases (isPrefixOfE p.data s.data).mp h with ⟨t, ht⟩
  exact ⟨cs ++ t, by rw [ht, hp]; rfl⟩

theorem startsFalseOfHead {p q : String} {c d : Char} {cs ds : List Char}
    (hp : p.data = c :: cs) (hq : q.data = d :: ds) (hne : c ≠ d) {s : String}
    (h : pyStartsWith s p = true) : pyStartsWith s q = false := by
  cases hb : pyStartsWith s q
  · rfl
  · exfalso
    rcases startsHead hp h with ⟨t, ht⟩
    rcases startsHead hq hb with ⟨u, hu⟩
    rw [ht] at hu
    injection hu with h1 h2
    exact hne h1

theorem afterFirstSome :
    ∀ (fuel : Nat) (sep l : List Char) (k : Nat), l.length < fuel → sep ≠ [] →
      sep.isPrefixOf (l.drop k) = true → ∃ v, afterFirst fuel sep l = some v := by
  intro fuel
  induction fuel with
  | zero => intro sep l k h _ _; omega
  | succ fuel ih =>
    intro sep l k h hsep hocc
    cases l with
    | nil =>
      exfalso
      cases sep with
      | nil => exact hsep rfl
      | cons a as => simp [ List.isPrefixOf] at hocc
    | cons c rest =>
      by_cases hpre : sep.isPrefixOf (c :: rest) = true
      · exact ⟨(c :: rest).drop sep.length, by simp [afterFirst, hpre]⟩
      · cases k with
        | zero => exact absurd hocc hpre
        | succ k =>
          have hlen : rest.length < fuel := by simp at h; omega
          rcases ih sep rest k hlen hsep (by simpa using hocc) with ⟨v, hv⟩
          exact ⟨v, by simp [afterFirst, hpre, hv]⟩

theorem splitAfterOfStarts {s p : String} (h : pyStartsWith s p = true) (hp : p ≠ "") :
    ∃ v, pySplitAfterFirst s p = some v := by
  have hsep : p.data ≠ [] := by
    intro hc
    exact hp (strExt (by rw [hc]))
  have hocc : p.data.isPrefixOf (s.data.drop 0) = true := by rw [List.drop_zero]; exact h
  rcases afterFirstSome (s.data.length + 1) p.data s.data 0 (by omega) hsep hocc with ⟨v, hv⟩
  refine ⟨⟨v⟩, ?_⟩
  unfold pySplitAfterFirst
  rw [hv]
  rfl

theorem splitPathOfStarts {s : String} (h : pyStartsWith s "- path:" = true) :
    ∃ v, pySplitAfterFirst s "path:" = some v := by
  rcases (isPrefixOfE "- path:".data s.data).mp h with ⟨t, ht⟩
  have hocc : "path:".data.isPrefixOf (s.data.drop 2) = true := by
    rw [ht]
    have hdrop : ("- path:".data ++ t).drop 2 = "path:".data ++ t := rfl
    rw [hdrop]
    exact (isPrefixOfE _ _).mpr ⟨t, rfl⟩
  rcases afterFirstSome (s.data.length + 1) "path:".data s.data 2 (by omega)
      (by decide) hocc with ⟨v, hv⟩
  refine ⟨⟨v⟩, ?_⟩
  unfold pySplitAfterFirst
  rw [hv]
  rfl

theorem maxStep {i n m : Nat} (hi : i < n) (h : m ≤ max (i + 1) n) : m ≤ max i n := by
  rw [Nat.max_eq_right (by omega : i + 1 ≤ n)] at h
  exact le_trans h (Nat.le_max_right _ _)

theorem maxStep2 {i j n m : Nat} (hi : i < n) (_ : i + 1 ≤ j) (hjb : j ≤ max (i + 1) n)
    (h : m ≤ max j n) : m ≤ max i n := by
  rw [Nat.max_eq_right (by omega : i + 1 ≤ n)] at hjb
  rw [Nat.max_eq_right hjb] at h
  exact le_trans h (Nat.le_max_right _ _)

/-! ### Progress and totality of the parser loops

For each loop: with fuel exceeding the remaining line count, the loop
returns `some`, its final index never decreases, and it never runs past the
end of the input.  These lemmas are the termination/progress argument of
the single forward scan, and they discharge the parser's totality. -/

theorem packagesLoopSpec :
    ∀ (fuel : Nat) (lines : List String) (i : Nat) (acc : List String),
      lines.length - i < fuel →
      ∃ r : List String × Nat, packagesLoop fuel lines i acc = some r ∧
        i ≤ r.2 ∧ r.2 ≤ max i lines.length := by
  intro fuel
  induction fuel with
  | zero => intro lines i acc h; omega
  | succ fuel ih =>
    intro lines i acc h
    cases hl : lines[i]? with
    | none =>
      exact ⟨(acc, i), by simp [packagesLoop, hl], Nat.le_refl i, Nat.le_max_left _ _⟩
    | some l =>
      have hi : i < lines.length := getSomeLt _ _ _ hl
      have hrec : lines.length - (i + 1) < fuel := by omega
      simp only [packagesLoop, hl]
      by_cases h1 : (pyStartsWith l "  " || pyStrip l == "") = true
      · rw [if_pos h1]
        rcases ih lines (i + 1)
            (if pyStartsWith (pyStrip l) "- " then acc ++ [pyStrip (pyDrop (pyStrip l) 2)]
             else acc) hrec with ⟨r, hr, hle, hub⟩
        exact ⟨r, hr, by omega, maxStep hi hub⟩
      · rw [if_neg h1]
        exact ⟨(acc, i), rfl, Nat.le_refl i, Nat.le_max_left _ _⟩

theorem runcmdLoopSpec :
    ∀ (fuel : Nat) (lines : List String) (i : Nat) (acc : List String),
      lines.length - i < fuel →
      ∃ r : List String × Nat, runcmdLoop fuel lines i acc = some r ∧
        i ≤ r.2 ∧ r.2 ≤ max i lines.length := by
  intro fuel
  induction fuel with
  | zero => intro lines i acc h; omega
  | succ fuel ih =>
    intro lines i acc h
    cases hl : lines[i]? with
    | none =>
      exact ⟨(acc, i), by simp [runcmdLoop, hl], Nat.le_refl i, Nat.le_max_left _ _⟩
    | some l =>
      have hi : i < lines.length := getSomeLt _ _ _ hl
      have hrec : lines.length - (i + 1) < fuel := by omega
      simp only [runcmdLoop, hl]
      by_cases h1 : (pyStartsWith l "  " || pyStrip l == "") = true
      · rw [if_pos h1]
        by_cases h2 : (pyStartsWith (pyStrip l) "# ") = true
        · rw [if_pos h2]
          rcases ih lines (i + 1) acc hrec with ⟨r, hr, hle, hub⟩
          exact ⟨r, hr, by omega, maxStep hi hub⟩
        · rw [if_neg h2]
          rcases ih lines (i + 1)
              (if pyStartsWith (pyStrip l) "- " then
                acc ++ [if pyStartsWith (pyDrop (pyStrip l) 2) "'" &&
                    pyEndsWith (pyDrop (pyStrip l) 2) "'" then
                  pySlice1Neg1 (pyDrop (pyStrip l) 2) else pyDrop (pyStrip l) 2]
               else acc) hrec with ⟨r, hr, hle, hub⟩
          exact ⟨r, hr, by omega, maxStep hi hub⟩
      · rw [if_neg h1]
        exact ⟨(acc, i), rfl, Nat.le_refl i, Nat.le_max_left _ _⟩

theorem contentLoopSpec :
    ∀ (fuel : Nat) (lines : List String) (i : Nat) (ci : Option Nat) (acc : List String),
      lines.length - i < fuel →
      ∃ r : List String × Nat, contentLoop fuel lines i ci acc = some r ∧
        i ≤ r.2 ∧ r.2 ≤ max i lines.length := by
  intro fuel
  induction fuel with
  | zero => intro lines i ci acc h; omega
  | succ fuel ih =>
    intro lines i ci acc h
    cases hl : lines[i]? with
    | none =>
      exact ⟨(acc, i), by simp [contentLoop, hl], Nat.le_refl i, Nat.le_max_left _ _⟩
    | some cl =>
      have hi : i < lines.length := getSomeLt _ _ _ hl
      have hrec : lines.length - (i + 1) < fuel := by omega
      simp only [contentLoop, hl]
      set CI := if ci == none && pyStrip cl != "" then some (leadingWs cl) else ci with hCI
      by_cases h1 :
          (ciTruthy CI && pyStartsWith cl (spaces (CI.getD 0)) && decide (0 < cl.length)) = true
      · rw [if_pos h1]
        rcases ih lines (i + 1) CI (acc ++ [pyDrop cl (CI.getD 0)]) hrec with ⟨r, hr, hle, hub⟩
        exact ⟨r, hr, by omega, maxStep hi hub⟩
      · rw [if_neg h1]
        by_cases h2 : (pyStrip cl == "") = true
        · rw [if_pos h2]
          by_cases h3 : (decide (i + 1 < lines.length) && ciTruthy CI) = true
          · rw [if_pos h3]
            have hi1 : i + 1 < lines.length := by
              have h3' := h3
              simp only [Bool.and_eq_true, decide_eq_true_eq] at h3'
              exact h3'.1
            rcases getLtSome lines (i + 1) hi1 with ⟨nl, hnl⟩
            simp only [hnl]
            by_cases h4 : (pyStartsWith nl (spaces (CI.getD 0))) = true
            · rw [if_pos h4]
              rcases ih lines (i + 1) CI (acc ++ [""]) hrec with ⟨r, hr, hle, hub⟩
              exact ⟨r, hr, by omega, maxStep hi hub⟩
            · rw [if_neg h4]
              exact ⟨(acc, i), rfl, Nat.le_refl i, Nat.le_max_left _ _⟩
          · rw [if_neg h3]
            exact ⟨(acc, i), rfl, Nat.le_refl i, Nat.le_max_left _ _⟩
        · rw [if_neg h2]
          exact ⟨(acc, i), rfl, Nat.le_refl i, Nat.le_max_left _ _⟩

theorem fieldsLoopSpec :
    ∀ (fuel : Nat) (lines : List String) (i : Nat) (e : FileEntry),
      lines.length - i < fuel →
      ∃ r : FileEntry × Nat, fieldsLoop fuel lines i e = some r ∧
        i ≤ r.2 ∧ r.2 ≤ max i lines.length := by
  intro fuel
  induction fuel with
  | zero => intro lines i e h; omega
  | succ fuel ih =>
    intro lines i e h
    cases hl : lines[i]? with
    | none =>
      exact ⟨(e, i), by simp [fieldsLoop, hl], Nat.le_refl i, Nat.le_max_left _ _⟩
    | some fl =>
      have hi : i < lines.length := getSomeLt _ _ _ hl
      have hrec : lines.length - (i + 1) < fuel := by omega
      simp only [fieldsLoop, hl]
      by_cases h1 : (pyStartsWith (pyStrip fl) "- path:" ||
          (fl != "" && !pyFirstIsSpace fl && pyStrip fl != "" &&
            !pyStartsWith (pyStrip fl) "#")) = true
      · rw [if_pos h1]
        exact ⟨(e, i), rfl, Nat.le_refl i, Nat.le_max_left _ _⟩
      · rw [if_neg h1]
        by_cases h2 : (pyStartsWith (pyStrip fl) "owner:") = true
        · rw [if_pos h2]
          rcases splitAfterOfStarts h2 (by decide) with ⟨v, hv⟩
          simp only [hv]
          rcases ih lines (i + 1) { e with owner := pyStrip v } hrec with ⟨r, hr, hle, hub⟩
          exact ⟨r, hr, by omega, maxStep hi hub⟩
        · rw [if_neg h2]
          by_cases h3 : (pyStartsWith (pyStrip fl) "permissions:") = true
          · rw [if_pos h3]
            rcases splitAfterOfStarts h3 (by decide) with ⟨v, hv⟩
            simp only [hv]
            rcases ih lines (i + 1) { e with permissions := pyStripQuotes (pyStrip v) } hrec
              with ⟨r, hr, hle, hub⟩
            exact ⟨r, hr, by omega, maxStep hi hub⟩
          · rw [if_neg h3]
            by_cases h4 : (pyStartsWith (pyStrip fl) "content:") = true
            · rw [if_pos h4]
              rcases contentLoopSpec (fullFuel lines) lines (i + 1) none []
                  (by unfold fullFuel; omega) with ⟨r0, hr0, hle0, hub0⟩
              simp only [hr0]
              have hrec0 : lines.length - r0.2 < fuel := by omega
              rcases ih lines r0.2 { e with content := pyRstrip (pyJoin "\n" r0.1) } hrec0
                with ⟨r, hr, hle, hub⟩
              exact ⟨r, hr, by omega, maxStep2 hi hle0 hub0 hub⟩
            · rw [if_neg h4]
              rcases ih lines (i + 1) e hrec with ⟨r, hr, hle, hub⟩
              exact ⟨r, hr, by omega, maxStep hi hub⟩

theorem wfLoopSpec :
    ∀ (fuel : Nat) (lines : List String) (i : Nat) (acc : List FileEntry),
      lines.length - i < fuel →
      ∃ r : List FileEntry × Nat, wfLoop fuel lines i acc = some r ∧
        i ≤ r.2 ∧ r.2 ≤ max i lines.length := by
  intro fuel
  induction fuel with
  | zero => intro lines i acc h; omega
  | succ fuel ih =>
    intro lines i acc h
    cases hl : lines[i]? with
    | none =>
      exact ⟨(acc, i), by simp [wfLoop, hl], Nat.le_refl i, Nat.le_max_left _ _⟩
    | some l =>
      have hi : i < lines.length := getSomeLt _ _ _ hl
      have hrec : lines.length - (i + 1) < fuel := by omega
      simp only [wfLoop, hl]
      by_cases h1 : (l != "" && !pyFirstIsSpace l && !pyStartsWith (pyStrip l) "#") = true
      · rw [if_pos h1]
        exact ⟨(acc, i), rfl, Nat.le_refl i, Nat.le_max_left _ _⟩
      · rw [if_neg h1]
        by_cases h2 : (pyStrip l == "" || pyStartsWith (pyStrip l) "#") = true
        · rw [if_pos h2]
          rcases ih lines (i + 1) acc hrec with ⟨r, hr, hle, hub⟩
          exact ⟨r, hr, by omega, maxStep hi hub⟩
        · rw [if_neg h2]
          by_cases h3 : (pyStartsWith (pyStrip l) "- path:") = true
          · rw [if_pos h3]
            rcases splitPathOfStarts h3 with ⟨pv, hpv⟩
            simp only [hpv]
            rcases fieldsLoopSpec (fullFuel lines) lines (i + 1)
                ⟨pyStrip pv, "root:root", "0644", ""⟩ (by unfold fullFuel; omega)
              with ⟨r0, hr0, hle0, hub0⟩
            simp only [hr0]
            have hrec0 : lines.length - r0.2 < fuel := by omega
            rcases ih lines r0.2 (acc ++ [r0.1]) hrec0 with ⟨r, hr, hle, hub⟩
            exact ⟨r, hr, by omega, maxStep2 hi hle0 hub0 hub⟩
          · rw [if_neg h3]
            rcases ih lines (i + 1) acc hrec with ⟨r, hr, hle, hub⟩
            exact ⟨r, hr, by omega, maxStep hi hub⟩

theorem mainLoopSpec :
    ∀ (fuel : Nat) (lines : List String) (i : Nat) (cfg : Config),
      lines.length - i < fuel →
      ∃ c : Config, mainLoop fuel lines i cfg = some c := by
  intro fuel
  induction fuel with
  | zero => intro lines i cfg h; omega
  | succ fuel ih =>
    intro lines i cfg h
    cases hl : lines[i]? with
    | none => exact ⟨cfg, by simp [mainLoop, hl]⟩
    | some line =>
      have hi : i < lines.length := getSomeLt _ _ _ hl
      have hrec : lines.length - (i + 1) < fuel := by omega
      simp only [mainLoop, hl]
      by_cases h1 : (pyStartsWith line "ssh_pwauth:") = true
      · rw [if_pos h1]
        exact ih lines (i + 1) _ hrec
      · rw [if_neg h1]
        by_cases h2 : (line == "packages:") = true
        · rw [if_pos h2]
          rcases packagesLoopSpec (fullFuel lines) lines (i + 1) cfg.packages
              (by unfold fullFuel; omega) with ⟨r0, hr0, hle0, hub0⟩
          simp only [hr0]
          exact ih lines r0.2 _ (by omega)
        · rw [if_neg h2]
          by_cases h3 : (line == "write_files:") = true
          · rw [if_pos h3]
            rcases wfLoopSpec (fullFuel lines) lines (i + 1) cfg.write_files
                (by unfold fullFuel; omega) with ⟨r0, hr0, hle0, hub0⟩
            simp only [hr0]
            exact ih lines r0.2 _ (by omega)
          · rw [if_neg h3]
            by_cases h4 : (line == "runcmd:") = true
            · rw [if_pos h4]
              rcases runcmdLoopSpec (fullFuel lines) lines (i + 1) cfg.runcmd
                  (by unfold fullFuel; omega) with ⟨r0, hr0, hle0, hub0⟩
              simp only [hr0]
              exact ih lines r0.2 _ (by omega)
            · rw [if_neg h4]
              exact ih lines (i + 1) cfg hrec

/-! ### Claim theorems -/

/-- Claim C8: for every input text (however malformed), `parse_cloud_init`
returns a `Config` — every guarded list-index access succeeds and no
failure path is reachable; `generate_bash` is total by construction
(a plain function into `String`). -/
theorem c8_parse_total (text : String) : (parse_cloud_init text).isSome = true := by
  unfold parse_cloud_init
  rcases mainLoopSpec (fullFuel (pySplit text "\n")) (pySplit text "\n") 0 ⟨true, [], [], []⟩
      (by unfold fullFuel; omega) with ⟨c, hc⟩
  rw [hc]
  rfl

/-- Claim C9: the parse is a forward-only scan.  Every loop of the parser,
given fuel exceeding the number of remaining lines, completes (in at most
that many iterations) with a final index that never decreases and never
exceeds the input length; the top-level scan completes likewise. -/
theorem c9_forward_scan :
    (∀ (fuel : Nat) (lines : List String) (i : Nat) (acc : List String),
        lines.length - i < fuel →
        ∃ r : List String × Nat, packagesLoop fuel lines i acc = some r ∧
          i ≤ r.2 ∧ r.2 ≤ max i lines.length) ∧
    (∀ (fuel : Nat) (lines : List String) (i : Nat) (acc : List String),
        lines.length - i < fuel →
        ∃ r : List String × Nat, runcmdLoop fuel lines i acc = some r ∧
          i ≤ r.2 ∧ r.2 ≤ max i lines.length) ∧
    (∀ (fuel : Nat) (lines : List String) (i : Nat) (ci : Option Nat) (acc : List String),
        lines.length - i < fuel →
        ∃ r : List String × Nat, contentLoop fuel lines i ci acc = some r ∧
          i ≤ r.2 ∧ r.2 ≤ max i lines.length) ∧
    (∀ (fuel : Nat) (lines : List String) (i : Nat) (e : FileEntry),
        lines.length - i < fuel →
        ∃ r : FileEntry × Nat, fieldsLoop fuel lines i e = some r ∧
          i ≤ r.2 ∧ r.2 ≤ max i lines.length) ∧
    (∀ (fuel : Nat) (lines : List String) (i : Nat) (acc : List FileEntry),
        lines.length - i < fuel →
        ∃ r : List FileEntry × Nat, wfLoop fuel lines i acc = some r ∧
          i ≤ r.2 ∧ r.2 ≤ max i lines.length) ∧
    (∀ (fuel : Nat) (lines : List String) (i : Nat) (cfg : Config),
        lines.length - i < fuel →
        ∃ c : Config, mainLoop fuel lines i cfg = some c) :=
  ⟨packagesLoopSpec, runcmdLoopSpec, contentLoopSpec, fieldsLoopSpec, wfLoopSpec, mainLoopSpec⟩

theorem c9_forward_scan_witness :
    ((["x"] : List String).length - 0 < 2 ∧
      ∃ r : List String × Nat, packagesLoop 2 ["x"] 0 [] = some r ∧
        0 ≤ r.2 ∧ r.2 ≤ max 0 (["x"] : List String).length) ∧
    (∃ r : List String × Nat, runcmdLoop 2 ["x"] 0 [] = some r ∧
      0 ≤ r.2 ∧ r.2 ≤ max 0 (["x"] : List String).length) ∧
    (∃ r : List String × Nat, contentLoop 2 ["x"] 0 none [] = some r ∧
      0 ≤ r.2 ∧ r.2 ≤ max 0 (["x"] : List String).length) ∧
    (∃ r : FileEntry × Nat, fieldsLoop 2 ["x"] 0 ⟨"p", "o", "m", "c"⟩ = some r ∧
      0 ≤ r.2 ∧ r.2 ≤ max 0 (["x"] : List String).length) ∧
    (∃ r : List FileEntry × Nat, wfLoop 2 ["x"] 0 [] = some r ∧
      0 ≤ r.2 ∧ r.2 ≤ max 0 (["x"] : List String).length) ∧
    (∃ c : Config, mainLoop 2 ["x"] 0 ⟨true, [], [], []⟩ = some c) :=
  ⟨⟨by decide, c9_forward_scan.1 2 ["x"] 0 [] (by decide)⟩,
    c9_forward_scan.2.1 2 ["x"] 0 [] (by decide),
    c9_forward_scan.2.2.1 2 ["x"] 0 none [] (by decide),
    c9_forward_scan.2.2.2.1 2 ["x"] 0 ⟨"p", "o", "m", "c"⟩ (by decide),
    c9_forward_scan.2.2.2.2.1 2 ["x"] 0 [] (by decide),
    c9_forward_scan.2.2.2.2.2 2 ["x"] 0 ⟨true, [], [], []⟩ (by decide)⟩

/-- Claim C1: parsing the round-trip document and generating for user
`"deploy"` yields the parse result of the specification and a script
containing the install line (`nginx git` in order), the `mkdir -p /etc`
line, the heredoc writing `hello\nworld` to `/etc/motd`, the `chmod` and
`chown` lines, the SSH hardening block, and `echo done` unchanged. -/
theorem c1_round_trip :
    parse_cloud_init docC1 = some cfgC1 ∧
    "apt-get install -y nginx git" ∈ generateLines cfgC1 "deploy" ∧
    "mkdir -p /etc" ∈ generateLines cfgC1 "deploy" ∧
    infixB ["cat > /etc/motd << 'FILEEOF'", "hello\nworld", "FILEEOF"]
      (generateLines cfgC1 "deploy") = true ∧
    "chmod 0644 /etc/motd" ∈ generateLines cfgC1 "deploy" ∧
    "chown root:root /etc/motd" ∈ generateLines cfgC1 "deploy" ∧
    infixB sshBlockCore (generateLines cfgC1 "deploy") = true ∧
    "echo done" ∈ generateLines cfgC1 "deploy" := by
  decide

theorem wfSectionFilter (user : String) :
    ∀ l : List FileEntry,
      wfSection user (l.filter fun e => !pyContains e.path "sshd_config") = wfSection user l := by
  intro l
  induction l with
  | nil => rfl
  | cons e t ih =>
    by_cases h : pyContains e.path "sshd_config" = true
    · simp [List.filter_cons, h, wfSection, ih]
    · simp [List.filter_cons, h, wfSection, ih]

/-- Claim C2: entries whose path contains `"sshd_config"` are skipped
entirely: for every `Config` and username (whatever `ssh_pwauth` is), the
generated script is byte-identical to the one generated after removing all
such entries, so no `mkdir`/heredoc/`chmod`/`chown` line of theirs is ever
emitted. -/
theorem c2_sshd_skipped (cfg : Config) (user : String) :
    generate_bash
        { cfg with write_files := cfg.write_files.filter fun e => !pyContains e.path "sshd_config" }
        user =
      generate_bash cfg user := by
  unfold generate_bash generateLines
  simp only [wfSectionFilter]

/-! ### Occurrence counting for the SSH hardening block (C3) -/

theorem countOccNotHead : ∀ (h : String) (t l : List String), h ∉ l →
    countBlockOcc (h :: t) l = 0 := by
  intro h t l
  induction l with
  | nil => intro _; rfl
  | cons x rest ih =>
    intro hmem
    have hx : h ≠ x := fun he => hmem (he ▸ List.mem_cons_self x rest)
    have hpre : (h :: t).isPrefixOf (x :: rest) = false := by
      cases hp : (h :: t).isPrefixOf (x :: rest)
      · rfl
      · exfalso
        rcases (isPrefixOfE (h :: t) (x :: rest)).mp hp with ⟨u, hu⟩
        rw [List.cons_append] at hu
        injection hu with h1 h2
        exact hx h1.symm
    simp [countBlockOcc, hpre, ih (fun hm => hmem (List.mem_cons_of_mem _ hm))]

theorem countOccAppend : ∀ (h : String) (t a b : List String), h ∉ a →
    countBlockOcc (h :: t) (a ++ b) = countBlockOcc (h :: t) b := by
  intro h t a
  induction a with
  | nil => intro b _; rfl
  | cons x rest ih =>
    intro b hmem
    have hx : h ≠ x := fun he => hmem (he ▸ List.mem_cons_self x rest)
    have hpre : (h :: t).isPrefixOf (x :: (rest ++ b)) = false := by
      cases hp : (h :: t).isPrefixOf (x :: (rest ++ b))
      · rfl
      · exfalso
        rcases (isPrefixOfE (h :: t) (x :: (rest ++ b))).mp hp with ⟨u, hu⟩
        rw [List.cons_append] at hu
        injection hu with h1 h2
        exact hx h1.symm
    simp [countBlockOcc, List.cons_append, hpre,
      ih b (fun hm => hmem (List.mem_cons_of_mem _ hm))]

theorem countOccSelf (h : String) (t b : List String) (ht : h ∉ t) (hb : h ∉ b) :
    countBlockOcc (h :: t) ((h :: t) ++ b) = 1 := by
  have hpre : (h :: t).isPrefixOf ((h :: t) ++ b) = true := (isPrefixOfE _ _).mpr ⟨b, rfl⟩
  have hz : countBlockOcc (h :: t) (t ++ b) = 0 := by
    rw [countOccAppend h t t b ht]
    exact countOccNotHead h t b hb
  rw [List.cons_append]
  rw [List.cons_append] at hpre
  simp [countBlockOcc, hpre, hz]

theorem sshCatNotPkg : ∀ packages : List String, sshCatLine ∉ pkgSection packages := by
  intro packages hmem
  unfold pkgSection at hmem
  by_cases h : packages.isEmpty = true
  · rw [if_pos h] at hmem
    simp at hmem
  · rw [if_neg h] at hmem
    simp only [List.mem_cons, List.mem_singleton] at hmem
    rcases hmem with h1 | h1 | h1 | h1 | h1 | h1
    · exact absurd h1 (by decide)
    · exact absurd h1 (by decide)
    · exact absurd h1 (by decide)
    · exact appendNeOfTake "apt-get install -y " sshCatLine (by decide)
        (pyJoin " " packages) h1.symm
    · exact absurd h1 (by decide)
    · simp at h1

/-- Claim C3 (amended): provided the hardening heredoc's `cat` line does
not also occur among the write-files or runcmd lines the generator emits
(it can be injected there, see the counterexample), the block of the four
fixed directives appears exactly once when `ssh_pwauth` is false and never
when it is true (the parser default); and the emitted SSH section is a
constant, independent of every other input field. -/
theorem c3_ssh_block (cfg : Config) (user : String)
    (h1 : sshCatLine ∉ wfSection user cfg.write_files)
    (h2 : sshCatLine ∉ runSection user cfg.runcmd) :
    countBlockOcc sshBlockCore (generateLines cfg user) =
      (if cfg.ssh_pwauth then 0 else 1) ∧
    sshSection cfg.ssh_pwauth =
      (if cfg.ssh_pwauth then [] else ["# SSH hardening"] ++ sshBlockCore ++ [""]) := by
  constructor
  · unfold generateLines
    have hH : sshCatLine ∉ headerLines := by decide
    have hP := sshCatNotPkg cfg.packages
    cases hpw : cfg.ssh_pwauth
    · have hsec2 : sshSection false ++ runSection user cfg.runcmd =
          ["# SSH hardening"] ++
            ((sshCatLine ::
              ["PasswordAuthentication no", "KbdInteractiveAuthentication no",
               "PubkeyAuthentication yes", "PermitRootLogin prohibit-password",
               "SSHCONF"]) ++ ("" :: runSection user cfg.runcmd)) := by
        rfl
      simp only [sshBlockCore, List.append_assoc]
      rw [countOccAppend _ _ headerLines _ hH]
      rw [countOccAppend _ _ (pkgSection cfg.packages) _ hP]
      rw [countOccAppend _ _ (wfSection user cfg.write_files) _ h1]
      rw [hsec2]
      rw [countOccAppend _ _ ["# SSH hardening"] _ (by decide)]
      rw [countOccSelf _ _ _ (by decide)]
      · simp
      · intro hm
        rcases List.mem_cons.mp hm with h | h
        · exact absurd h (by decide)
        · exact h2 h
    · have hsec : sshSection true = ([] : List String) := rfl
      rw [hsec]
      simp only [sshBlockCore, List.append_assoc, List.nil_append]
      rw [countOccAppend _ _ headerLines _ hH]
      rw [countOccAppend _ _ (pkgSection cfg.packages) _ hP]
      rw [countOccAppend _ _ (wfSection user cfg.write_files) _ h1]
      rw [countOccNotHead _ _ _ h2]
      simp
  · cases cfg.ssh_pwauth
    · rfl
    · rfl

theorem c3_ssh_block_witness :
    (sshCatLine ∉ wfSection "deploy" cfgDemo.write_files) ∧
    (sshCatLine ∉ runSection "deploy" cfgDemo.runcmd) ∧
    (countBlockOcc sshBlockCore (generateLines cfgDemo "deploy") =
        (if cfgDemo.ssh_pwauth then 0 else 1) ∧
      sshSection cfgDemo.ssh_pwauth =
        (if cfgDemo.ssh_pwauth then [] else ["# SSH hardening"] ++ sshBlockCore ++ [""])) :=
  ⟨by decide, by decide, c3_ssh_block cfgDemo "deploy" (by decide) (by decide)⟩

/-- Counterexample to C3 as stated universally: with `ssh_pwauth = true`
(block must not appear) and a runcmd whose commands are exactly the block's
lines, the generated output contains the hardening block once. -/
theorem c3_ssh_block_cx :
    cfgInjC3.ssh_pwauth = true ∧
    countBlockOcc sshBlockCore (generateLines cfgInjC3 "deploy") = 1 := by
  decide

theorem wfSectionUbuntu : ∀ l : List FileEntry, wfSection "ubuntu" l = wfSectionRaw l := by
  intro l
  induction l with
  | nil => rfl
  | cons e t ih =>
    unfold wfSection wfSectionRaw
    rw [ih]
    by_cases h : pyContains e.path "sshd_config" = true
    · rw [if_pos h, if_pos h]
    · rw [if_neg h, if_neg h]
      simp [wfEntryLines, bne_self_eq_false]

theorem runSectionUbuntu :
    ∀ cmds : List String,
      runSection "ubuntu" cmds = if cmds.isEmpty then [] else "# Run commands" :: (cmds ++ [""]) := by
  intro cmds
  unfold runSection
  by_cases h : cmds.isEmpty = true
  · rw [if_pos h, if_pos h]
  · rw [if_neg h, if_neg h]
    simp [bne_self_eq_false]

/-- Claim C4: for username `"ubuntu"` no substring replacement is applied
anywhere — the generated script equals the one built from the stored
paths, owners, contents, and commands verbatim. -/
theorem c4_ubuntu_identity (cfg : Config) :
    generate_bash cfg "ubuntu" = generateUbuntuSpec cfg := by
  unfold generate_bash generateUbuntuSpec generateLines
  rw [wfSectionUbuntu, runSectionUbuntu]

/-- Claim C5: for a non-`"ubuntu"` user and non-empty runcmd, the runcmd
section is exactly the comment line followed by each command rewritten by
the five in-sequence literal replacements of `rewriteCmdSpec`, in input
order, then a blank line. -/
theorem c5_runcmd_rewrites (cfg : Config) (user : String) (h1 : user ≠ "ubuntu")
    (h2 : cfg.runcmd ≠ []) :
    generateLines cfg user =
      headerLines ++ pkgSection cfg.packages ++ wfSection user cfg.write_files ++
        sshSection cfg.ssh_pwauth ++
        ("# Run commands" :: (cfg.runcmd.map (fun cmd => rewriteCmdSpec user cmd) ++ [""])) := by
  unfold generateLines runSection
  have hne : cfg.runcmd.isEmpty = false := by
    cases hl : cfg.runcmd
    · exact absurd hl h2
    · rfl
  have hb : (user != "ubuntu") = true := by
    simp only [bne_iff_ne, ne_eq]
    exact h1
  simp [hne, hb, rewriteCmdSpec]

theorem c5_runcmd_rewrites_witness :
    ("deploy" : String) ≠ "ubuntu" ∧ cfgDemo.runcmd ≠ [] ∧
    generateLines cfgDemo "deploy" =
      headerLines ++ pkgSection cfgDemo.packages ++ wfSection "deploy" cfgDemo.write_files ++
        sshSection cfgDemo.ssh_pwauth ++
        ("# Run commands" :: (cfgDemo.runcmd.map (fun cmd => rewriteCmdSpec "deploy" cmd) ++ [""])) :=
  ⟨by decide, by decide, c5_runcmd_rewrites cfgDemo "deploy" (by decide) (by decide)⟩

/-- Claim C10: username rewriting never touches the permissions field.
Emitting an entry for any user equals emitting, for the identity user
`"ubuntu"`, the entry whose path, owner, and content have absorbed the
(conditional) replacements while `permissions` is kept exactly as stored —
so the `chmod` line always carries the parser's permissions string. -/
theorem c10_permissions_frame (user : String) (e : FileEntry) :
    wfEntryLines user e =
      wfEntryLines "ubuntu"
        ⟨if user != "ubuntu" then pyReplace e.path "/home/ubuntu" (homeOf user) else e.path,
         if user != "ubuntu" then pyReplace e.owner "ubuntu" user else e.owner,
         e.permissions,
         if user != "ubuntu" then pyReplace e.content "/home/ubuntu" (homeOf user) else e.content⟩ := by
  unfold wfEntryLines
  simp [bne_self_eq_false]

/-- Claim C6 (amended): inside a `content: |` block with established
indentation `n > 0`: (1) a line carrying the indentation — even a
whitespace-only one — is collected as the line minus the indentation,
without consulting the next line; (2) a blank line without the indentation
is retained as an empty line when the immediately following line carries
the indentation; (3) such a blank line otherwise (end of input, or next
line unindented) terminates the block unretained; (4) the stored content
is the collected lines joined by newlines and right-stripped. -/
theorem c6_content_block_rules :
    (∀ (fuel : Nat) (lines : List String) (i n : Nat) (acc : List String) (cl : String),
        lines[i]? = some cl → n ≠ 0 → pyStartsWith cl (spaces n) = true →
        contentLoop (fuel + 1) lines i (some n) acc =
          contentLoop fuel lines (i + 1) (some n) (acc ++ [pyDrop cl n])) ∧
    (∀ (fuel : Nat) (lines : List String) (i n : Nat) (acc : List String) (cl nl : String),
        lines[i]? = some cl → n ≠ 0 → pyStrip cl = "" →
        pyStartsWith cl (spaces n) = false → lines[i + 1]? = some nl →
        pyStartsWith nl (spaces n) = true →
        contentLoop (fuel + 1) lines i (some n) acc =
          contentLoop fuel lines (i + 1) (some n) (acc ++ [""])) ∧
    (∀ (fuel : Nat) (lines : List String) (i n : Nat) (acc : List String) (cl : String),
        lines[i]? = some cl → n ≠ 0 → pyStrip cl = "" →
        pyStartsWith cl (spaces n) = false →
        (lines[i + 1]? = none ∨
          ∀ nl, lines[i + 1]? = some nl → pyStartsWith nl (spaces n) = false) →
        contentLoop (fuel + 1) lines i (some n) acc = some (acc, i)) ∧
    (∀ (fuel : Nat) (lines : List String) (i : Nat) (e : FileEntry) (fl : String)
        (r : List String × Nat),
        lines[i]? = some fl → pyFirstIsSpace fl = true →
        pyStartsWith (pyStrip fl) "content:" = true →
        contentLoop (fullFuel lines) lines (i + 1) none [] = some r →
        fieldsLoop (fuel + 1) lines i e =
          fieldsLoop fuel lines r.2 { e with content := pyRstrip (pyJoin "\n" r.1) }) := by
  have hbeq : ∀ n : Nat, ((some n : Option Nat) == (none : Option Nat)) = false := fun _ => rfl
  have htr : ∀ n : Nat, n ≠ 0 → ciTruthy (some n) = true := by
    intro n hn
    simp only [ciTruthy, bne_iff_ne, ne_eq]
    exact hn
  refine ⟨?_, ?_, ?_, ?_⟩
  · intro fuel lines i n acc cl hl hn hsw
    have h0 : 0 < cl.length := by
      rcases (isPrefixOfE (spaces n).data cl.data).mp hsw with ⟨t, ht⟩
      have h2 : cl.data.length = (spaces n).data.length + t.length := by
        rw [ht, List.length_append]
      have hsp : (spaces n).data.length = n := by simp [spaces]
      have hlen : cl.length = cl.data.length := rfl
      omega
    have hdec : decide (0 < cl.length) = true := decide_eq_true h0
    simp [contentLoop, hl, hbeq, htr n hn, hsw, hdec]
  · intro fuel lines i n acc cl nl hl hn hblank hnsw hnl hnlsw
    have hi1 : i + 1 < lines.length := getSomeLt _ _ _ hnl
    have hdec : decide (i + 1 < lines.length) = true := decide_eq_true hi1
    simp [contentLoop, hl, hbeq, htr n hn, hnsw, hblank, hdec, hnl, hnlsw]
  · intro fuel lines i n acc cl hl hn hblank hnsw hterm
    rcases hterm with hnone | hall
    · have hge : ¬ i + 1 < lines.length := by
        intro hlt
        rcases getLtSome lines (i + 1) hlt with ⟨x, hx⟩
        rw [hx] at hnone
        exact Option.noConfusion hnone
      have hdec : decide (i + 1 < lines.length) = false := decide_eq_false hge
      simp [contentLoop, hl, hbeq, htr n hn, hnsw, hblank, hdec]
    · cases hnl : lines[i + 1]? with
      | none =>
        have hge : ¬ i + 1 < lines.length := by
          intro hlt
          rcases getLtSome lines (i + 1) hlt with ⟨x, hx⟩
          rw [hx] at hnl
          exact Option.noConfusion hnl
        have hdec : decide (i + 1 < lines.length) = false := decide_eq_false hge
        simp [contentLoop, hl, hbeq, htr n hn, hnsw, hblank, hdec]
      | some nl =>
        have hnlsw := hall nl hnl
        have hi1 : i + 1 < lines.length := getSomeLt _ _ _ hnl
        have hdec : decide (i + 1 < lines.length) = true := decide_eq_true hi1
        simp [contentLoop, hl, hbeq, htr n hn, hnsw, hblank, hdec, hnl, hnlsw]
  · intro fuel lines i e fl r hl hsp hcw hcl
    have hnp : pyStartsWith (pyStrip fl) "- path:" = false :=
      startsFalseOfHead (show ("content:" : String).data = 'c' :: "ontent:".data from rfl)
        (show ("- path:" : String).data = '-' :: " path:".data from rfl) (by decide) hcw
    have how : pyStartsWith (pyStrip fl) "owner:" = false :=
      startsFalseOfHead (show ("content:" : String).data = 'c' :: "ontent:".data from rfl)
        (show ("owner:" : String).data = 'o' :: "wner:".data from rfl) (by decide) hcw
    have hpm : pyStartsWith (pyStrip fl) "permissions:" = false :=
      startsFalseOfHead (show ("content:" : String).data = 'c' :: "ontent:".data from rfl)
        (show ("permissions:" : String).data = 'p' :: "ermissions:".data from rfl)
        (by decide) hcw
    simp [fieldsLoop, hl, hsp, hnp, how, hpm, hcw, hcl]

theorem c6_content_block_rules_witness :
    contentLoop 2 ["  ab"] 0 (some 2) [] = contentLoop 1 ["  ab"] 1 (some 2) ([] ++ [pyDrop "  ab" 2]) ∧
    contentLoop 2 ["", "  x"] 0 (some 2) [] = contentLoop 1 ["", "  x"] 1 (some 2) ([] ++ [""]) ∧
    contentLoop 2 [""] 0 (some 2) [] = some ([], 0) ∧
    fieldsLoop 2 ["    content: |", "      h"] 0 ⟨"p", "o", "m", ""⟩ =
      fieldsLoop 1 ["    content: |", "      h"] 2
        { (⟨"p", "o", "m", ""⟩ : FileEntry) with content := pyRstrip (pyJoin "\n" (["h"], 2).1) } :=
  ⟨c6_content_block_rules.1 1 ["  ab"] 0 2 [] "  ab" (by decide) (by decide) (by decide),
   c6_content_block_rules.2.1 1 ["", "  x"] 0 2 [] "" "  x" (by decide) (by decide) (by decide)
     (by decide) (by decide) (by decide),
   c6_content_block_rules.2.2.1 1 [""] 0 2 [] "" (by decide) (by decide) (by decide) (by decide)
     (Or.inl (by decide)),
   c6_content_block_rules.2.2.2 1 ["    content: |", "      h"] 0 ⟨"p", "o", "m", ""⟩
     "    content: |" (["h"], 2) (by decide) (by decide) (by decide) (by decide)⟩

/-- Counterexample to C6 as stated: in a block with established
indentation 4, the whitespace-only line `"      "` (six spaces) sits
between two indented lines; the claim requires it to be retained as an
empty line, but the parser stores it as the residual whitespace `"  "`. -/
theorem c6_content_blank_cx :
    parse_cloud_init "write_files:\n  - path: /m\n    content: |\n    a\n      \n    b" =
      some ⟨true, [], [⟨"/m", "root:root", "0644", "a\n  \nb"⟩], []⟩ ∧
    ("a\n  \nb" : String) ≠ "a\n\nb" := by
  decide

/-- Claim C7 (amended): a runcmd item line contributes the text after the
`"- "` marker, with surrounding quotes stripped exactly when that text
both starts and ends with a single-quote character — including the
one-character text `'`, where the same quote plays both roles and the
result is empty. -/
theorem c7_quote_rule :
    ∀ (fuel : Nat) (lines : List String) (i : Nat) (acc : List String) (l : String),
      lines[i]? = some l → (pyStartsWith l "  " || pyStrip l == "") = true →
      pyStartsWith (pyStrip l) "- " = true →
      runcmdLoop (fuel + 1) lines i acc =
        runcmdLoop fuel lines (i + 1) (acc ++ [stripOuterQuotes (pyDrop (pyStrip l) 2)]) := by
  intro fuel lines i acc l hl hcond hdash
  have hcmt : pyStartsWith (pyStrip l) "# " = false :=
    startsFalseOfHead (show ("- " : String).data = '-' :: " ".data from rfl)
      (show ("# " : String).data = '#' :: " ".data from rfl) (by decide) hdash
  simp [runcmdLoop, hl, hcond, hcmt, hdash, stripOuterQuotes]

theorem c7_quote_rule_witness :
    (["  - 'a b'"] : List String)[0]? = some "  - 'a b'" ∧
    (pyStartsWith "  - 'a b'" "  " || pyStrip "  - 'a b'" == "") = true ∧
    pyStartsWith (pyStrip "  - 'a b'") "- " = true ∧
    runcmdLoop 2 ["  - 'a b'"] 0 [] =
      runcmdLoop 1 ["  - 'a b'"] 1 ([] ++ [stripOuterQuotes (pyDrop (pyStrip "  - 'a b'") 2)]) :=
  ⟨by decide, by decide, by decide,
   c7_quote_rule 1 ["  - 'a b'"] 0 [] "  - 'a b'" (by decide) (by decide) (by decide)⟩

/-- Counterexample to C7 as stated: the runcmd item `- '` is a single
quote character, not "one opening quote and a distinct closing quote", yet
the parser strips it and stores the empty command instead of `'`. -/
theorem c7_quote_cx :
    parse_cloud_init "runcmd:\n  - '" = some ⟨true, [], [], [""]⟩ ∧ ("" : String) ≠ "'" := by
  decide
